import Mathlib

/-!
Shallow embedding of the analytics engine of the keiba-vps repository
(`analyzer.py`, together with the strategy validation of `api/index.py`).

Records are modelled as Lean structures; SQL rows joined through the
session queries become explicit list filters over an in-memory database
value; Python truthiness tests (`if r.ranking:` and friends) are modelled
by explicit zero/empty tests on optional fields; Python floats are
modelled by rationals.  The one operation that can raise a `TypeError`
(`None <= 3` inside `calculate_win_rate`) returns `Except`.
-/

/-- Row of the `races` table, restricted to the columns the analytics
engine reads.  `race_date` is a day number so that window cutoffs are
plain integer comparisons. -/
structure Race where
  race_id : String
  race_date : Int
  distance : Option Nat
  track_condition : Option String
deriving DecidableEq, Repr

/-- Row of the `horses` table, restricted to the columns the engine reads. -/
structure Horse where
  horse_id : String
  horse_name : String
deriving DecidableEq, Repr

/-- Row of the `race_results` fact table, restricted to the columns the
engine reads.  `id` is the autoincrement primary key used as the
insertion-recency proxy. -/
structure RaceResult where
  id : Nat
  race_id : String
  horse_id : String
  horse_number : Option Nat
  ranking : Option Nat
  jockey : Option String
  odds : Option ℚ
  popularity : Option Nat
deriving DecidableEq, Repr

/-- The in-memory database the session queries run over. -/
structure DB where
  races : List Race
  horses : List Horse
  results : List RaceResult
deriving Repr

/-- Python truthiness of an optional integer column (`None` and `0` are falsy). -/
def truthyNat : Option Nat → Bool
  | some n => n != 0
  | none => false

/-- Python truthiness of an optional float column (`None` and `0.0` are falsy). -/
def truthyQ : Option ℚ → Bool
  | some q => q != 0
  | none => false

/-- Mean of a list of integers, as `np.mean` computes it (sum over length). -/
def meanN (l : List Nat) : ℚ := (l.sum : ℚ) / l.length

/-- Mean of a list of rationals, as `np.mean` computes it (sum over length). -/
def meanQ (l : List ℚ) : ℚ := l.sum / l.length

/-- Primary-key lookup of a race, modelling the SQL join on `race_id`. -/
def findRace (db : DB) (rid : String) : Option Race :=
  db.races.find? (fun rc => rc.race_id == rid)

/-- Primary-key lookup of a horse, modelling the SQL join on `horse_id`. -/
def findHorse (db : DB) (hid : String) : Option Horse :=
  db.horses.find? (fun h => h.horse_id == hid)

/-- Results of one horse joined to their race and restricted to races with
date at or after the cutoff: the windowed query of `calculate_win_rate`. -/
def resultsInWindow (db : DB) (hid : String) (cutoff : Int) : List RaceResult :=
  db.results.filter (fun r =>
    r.horse_id == hid &&
      match findRace db r.race_id with
      | some rc => decide (cutoff ≤ rc.race_date)
      | none => false)

/-- Results ridden by one jockey, windowed the same way:
the query of `analyze_jockey_performance`. -/
def resultsForJockey (db : DB) (name : String) (cutoff : Int) : List RaceResult :=
  db.results.filter (fun r =>
    r.jockey == some name &&
      match findRace db r.race_id with
      | some rc => decide (cutoff ≤ rc.race_date)
      | none => false)

/-- Return record of `calculate_win_rate`. -/
structure WinRate where
  total_races : Nat
  wins : Nat
  win_rate : ℚ
  top3_rate : ℚ
deriving DecidableEq, Repr

/-- The Python comparison `ranking <= 3`: raises `TypeError` when the
column is `NULL`, otherwise compares the integers. -/
def leOrRaise (o : Option Nat) (b : Nat) : Except String Bool :=
  match o with
  | none => .error "TypeError: '<=' not supported between instances of 'NoneType' and 'int'"
  | some a => .ok (decide (a ≤ b))

/-- The generator `sum(1 for r in results if r.ranking <= 3)`: counts
ranks at most 3, raising at the first result with an absent rank. -/
def countTop3 : List RaceResult → Except String Nat
  | [] => .ok 0
  | r :: rs => do
      let b ← leOrRaise r.ranking 3
      let n ← countTop3 rs
      pure (if b then n + 1 else n)

/-- Embedding of `KeibaAnalyzer.calculate_win_rate`. -/
def calculate_win_rate (db : DB) (hid : String) (cutoff : Int) :
    Except String WinRate :=
  let results := resultsInWindow db hid cutoff
  if results.isEmpty then .ok ⟨0, 0, 0, 0⟩
  else do
    let total := results.length
    let wins := results.countP (fun r => r.ranking == some 1)
    let top3 ← countTop3 results
    pure ⟨total, wins, (wins : ℚ) / total * 100, (top3 : ℚ) / total * 100⟩

/-- Return record of `analyze_jockey_performance`. -/
structure JockeyPerf where
  total_races : Nat
  wins : Nat
  win_rate : ℚ
  avg_ranking : Option ℚ
  avg_odds : Option ℚ
deriving DecidableEq, Repr

/-- The comprehension `[r.ranking for r in results if r.ranking]`:
the present (truthy) finishing ranks. -/
def presentRanks (l : List RaceResult) : List Nat :=
  l.filterMap (fun r =>
    match r.ranking with
    | some n => if n != 0 then some n else none
    | none => none)

/-- The comprehension `[r.odds for r in results if r.odds]`:
the present (truthy) decimal odds. -/
def presentOdds (l : List RaceResult) : List ℚ :=
  l.filterMap (fun r =>
    match r.odds with
    | some q => if q != 0 then some q else none
    | none => none)

/-- Embedding of `KeibaAnalyzer.analyze_jockey_performance`. -/
def analyze_jockey_performance (db : DB) (name : String) (cutoff : Int) :
    JockeyPerf :=
  let results := resultsForJockey db name cutoff
  if results.isEmpty then ⟨0, 0, 0, none, none⟩
  else
    let total := results.length
    let wins := results.countP (fun r => r.ranking == some 1)
    let rankings := presentRanks results
    let odds := presentOdds results
    ⟨total, wins, (wins : ℚ) / total * 100,
      if rankings.isEmpty then none else some (meanN rankings),
      if odds.isEmpty then none else some (meanQ odds)⟩

/-- Results of one horse inner-joined to their race:
the query shared by `analyze_track_condition` and
`analyze_distance_performance`. -/
def joinedResults (db : DB) (hid : String) : List (RaceResult × Race) :=
  db.results.filterMap (fun r =>
    if r.horse_id == hid then (findRace db r.race_id).map (fun rc => (r, rc))
    else none)

/-- The expression `race.track_condition or '不明'`: the group key used by
`analyze_track_condition`, sending falsy (absent or empty) conditions to
the explicit unknown label. -/
def condKey (rc : Race) : String :=
  match rc.track_condition with
  | none => "不明"
  | some s => if s = "" then "不明" else s

/-- Per-condition accumulator of `analyze_track_condition`. -/
structure CondStats where
  condition : String
  races : Nat
  wins : Nat
  rankings : List Nat
deriving DecidableEq, Repr

/-- One loop body of `analyze_track_condition`: bump the race count, the
win count on rank 1, and append a present (truthy) rank. -/
def bumpCond (s : CondStats) (r : RaceResult) : CondStats :=
  { s with
    races := s.races + 1,
    wins := if r.ranking == some 1 then s.wins + 1 else s.wins,
    rankings :=
      match r.ranking with
      | some n => if n != 0 then s.rankings ++ [n] else s.rankings
      | none => s.rankings }

/-- Update of the insertion-ordered condition table: bump the existing
group for the key, or append a fresh group at the end. -/
def updateCond (l : List CondStats) (key : String) (r : RaceResult) :
    List CondStats :=
  match l with
  | [] => [bumpCond ⟨key, 0, 0, []⟩ r]
  | s :: ss =>
      if s.condition = key then bumpCond s r :: ss
      else s :: updateCond ss key r

/-- The aggregation loop of `analyze_track_condition` over all joined
results, building the insertion-ordered `condition_stats` table. -/
def condStatsList (db : DB) (hid : String) : List CondStats :=
  (joinedResults db hid).foldl
    (fun acc p => updateCond acc (condKey p.2) p.1) []

/-- Per-condition record returned by `analyze_track_condition`. -/
structure CondReport where
  condition : String
  races : Nat
  wins : Nat
  win_rate : ℚ
  avg_ranking : Option ℚ
deriving DecidableEq, Repr

/-- Embedding of `KeibaAnalyzer.analyze_track_condition`. -/
def analyze_track_condition (db : DB) (hid : String) : List CondReport :=
  (condStatsList db hid).map (fun s =>
    ⟨s.condition, s.races, s.wins,
      if s.races > 0 then (s.wins : ℚ) / s.races * 100 else 0,
      if s.rankings.isEmpty then none else some (meanN s.rankings)⟩)

/-- Per-band accumulator of `analyze_distance_performance`. -/
structure DistStats where
  races : Nat
  wins : Nat
  rankings : List Nat
deriving DecidableEq, Repr

/-- The four fixed distance bands, in the dictionary's insertion order,
as (label, exclusive lower bound, inclusive upper bound). -/
def distBands : List (String × Nat × Nat) :=
  [("sprint", 0, 1400), ("mile", 1400, 1800),
   ("intermediate", 1800, 2200), ("long", 2200, 9999)]

/-- Number of distance bands whose half-open interval contains `d`. -/
def distBandsMatched (d : Nat) : Nat :=
  distBands.countP (fun b => decide (b.2.1 < d) && decide (d ≤ b.2.2))

/-- The four-band accumulator table of `analyze_distance_performance`. -/
structure DistTable where
  sprint : DistStats
  mile : DistStats
  intermediate : DistStats
  long : DistStats
deriving DecidableEq, Repr

/-- One loop body of `analyze_distance_performance`: bump the band stats
with a result. -/
def bumpDist (s : DistStats) (r : RaceResult) : DistStats :=
  { races := s.races + 1,
    wins := if r.ranking == some 1 then s.wins + 1 else s.wins,
    rankings :=
      match r.ranking with
      | some n => if n != 0 then s.rankings ++ [n] else s.rankings
      | none => s.rankings }

/-- One iteration of the bucketing loop: skip a falsy (absent or zero)
distance, otherwise bump the first band whose interval contains it
(the `break` after a match), and drop distances beyond every band. -/
def updateDist (tab : DistTable) (r : RaceResult) (rc : Race) : DistTable :=
  match rc.distance with
  | none => tab
  | some d =>
      if d = 0 then tab
      else if d ≤ 1400 then { tab with sprint := bumpDist tab.sprint r }
      else if d ≤ 1800 then { tab with mile := bumpDist tab.mile r }
      else if d ≤ 2200 then { tab with intermediate := bumpDist tab.intermediate r }
      else if d ≤ 9999 then { tab with long := bumpDist tab.long r }
      else tab

/-- The bucketing loop of `analyze_distance_performance` over all joined
results of the horse. -/
def distTable (db : DB) (hid : String) : DistTable :=
  (joinedResults db hid).foldl (fun tab p => updateDist tab p.1 p.2)
    ⟨⟨0, 0, []⟩, ⟨0, 0, []⟩, ⟨0, 0, []⟩, ⟨0, 0, []⟩⟩

/-- Per-band record returned by `analyze_distance_performance`. -/
structure DistReport where
  races : Nat
  wins : Nat
  win_rate : ℚ
  avg_ranking : Option ℚ
deriving DecidableEq, Repr

/-- The per-band statistics pass of `analyze_distance_performance`. -/
def finalizeDist (s : DistStats) : DistReport :=
  if s.races > 0 then
    ⟨s.races, s.wins, (s.wins : ℚ) / s.races * 100,
      if s.rankings.isEmpty then none else some (meanN s.rankings)⟩
  else ⟨s.races, s.wins, 0, none⟩

/-- Embedding of `KeibaAnalyzer.analyze_distance_performance`, returning
the four band reports in dictionary order. -/
def analyze_distance_performance (db : DB) (hid : String) :
    DistReport × DistReport × DistReport × DistReport :=
  let tab := distTable db hid
  (finalizeDist tab.sprint, finalizeDist tab.mile,
   finalizeDist tab.intermediate, finalizeDist tab.long)

/-- Sum of the race counts reported across the four distance bands. -/
def distRacesSum (db : DB) (hid : String) : Nat :=
  let rep := analyze_distance_performance db hid
  rep.1.races + rep.2.1.races + rep.2.2.1.races + rep.2.2.2.races

/-- Stable insertion into a list sorted descending by `k`: the new
element goes after every element with a key at least as large.  This is
the insertion step of the stable descending sort that models Python's
`list.sort(key=..., reverse=True)`. -/
def insDesc (k : α → ℚ) (a : α) : List α → List α
  | [] => [a]
  | b :: l => if k b ≤ k a then a :: b :: l else b :: insDesc k a l

/-- Stable sort descending by `k`, modelling Python's stable
`list.sort(key=..., reverse=True)`: equal keys keep their original
relative order. -/
def sortDesc (k : α → ℚ) : List α → List α
  | [] => []
  | a :: l => insDesc k a (sortDesc k l)

/-- Prediction record built for each entry by `predict_race_result`
(before the predicted rank is attached). -/
structure PredEntry where
  horse_id : String
  horse_name : String
  horse_number : Option Nat
  score : ℚ
  jockey : Option String
  popularity : Option Nat
deriving DecidableEq, Repr

/-- Entries of a race joined to their horse: the query of
`predict_race_result`. -/
def raceEntries (db : DB) (rid : String) : List (RaceResult × Horse) :=
  db.results.filterMap (fun r =>
    if r.race_id == rid then (findHorse db r.horse_id).map (fun h => (r, h))
    else none)

/-- The up-to-5 most recent other results of a horse, ordered by the
storage-assigned id descending: the history query of
`predict_race_result`. -/
def pastResults (db : DB) (hid : String) (rid : String) : List RaceResult :=
  (sortDesc (fun r => (r.id : ℚ))
    (db.results.filter (fun r => r.horse_id == hid && r.race_id != rid))).take 5

/-- The score accumulation of `predict_race_result`, mirroring the
sequential `score += ...` structure of the source. -/
def computeScore (past : List RaceResult) (pop : Option Nat) : ℚ :=
  let s1 : ℚ :=
    if past.isEmpty then 0
    else
      let recent := presentRanks past
      let a : ℚ := if recent.isEmpty then 0 else (20 - meanN recent) * 5
      let wins := past.countP (fun r => r.ranking == some 1)
      let winRate : ℚ := (wins : ℚ) / past.length * 100
      a + winRate * 2
  let s2 : ℚ :=
    if truthyNat pop then
      match pop with
      | some p => (20 - (p : ℚ)) * 3
      | none => 0
    else 0
  s1 + s2

/-- The prediction record built for one (entry, horse) pair. -/
def mkPrediction (db : DB) (rid : String) (p : RaceResult × Horse) : PredEntry :=
  ⟨p.2.horse_id, p.2.horse_name, p.1.horse_number,
    computeScore (pastResults db p.2.horse_id rid) p.1.popularity,
    p.1.jockey, p.1.popularity⟩

/-- The unsorted prediction list of `predict_race_result`. -/
def rawPredictions (db : DB) (rid : String) : List PredEntry :=
  (raceEntries db rid).map (mkPrediction db rid)

/-- The enumeration loop attaching `predicted_rank = i + 1` to the sorted
predictions, starting at `n`. -/
def assignRanks : Nat → List PredEntry → List (PredEntry × Nat)
  | _, [] => []
  | n, p :: ps => (p, n) :: assignRanks (n + 1) ps

/-- Embedding of `KeibaAnalyzer.predict_race_result`: score every entry,
sort descending by score (stable), and attach 1-based predicted ranks. -/
def predict_race_result (db : DB) (rid : String) : List (PredEntry × Nat) :=
  assignRanks 1 (sortDesc (fun p => p.score) (rawPredictions db rid))

/-- The expression `x.odds or 0`: decimal odds with falsy values
replaced by zero. -/
def oddsOr0 (r : RaceResult) : ℚ :=
  match r.odds with
  | some q => q
  | none => 0

/-- Python's `max(xs, key=k)` starting from `best`: keeps the first
element attaining the maximal key. -/
def pyMax (k : α → ℚ) : α → List α → α
  | best, [] => best
  | best, y :: ys => pyMax k (if k best < k y then y else best) ys

/-- The longshot filter `r.popularity and r.popularity >= 10`. -/
def longshotP (r : RaceResult) : Bool :=
  match r.popularity with
  | some p => p != 0 && 10 ≤ p
  | none => false

/-- The value filter `r.popularity and 3 <= r.popularity <= 8`. -/
def valueP (r : RaceResult) : Bool :=
  match r.popularity with
  | some p => p != 0 && 3 ≤ p && p ≤ 8
  | none => false

/-- The value key `(x.odds or 0) / x.popularity if x.popularity else 0`. -/
def valueKey (r : RaceResult) : ℚ :=
  match r.popularity with
  | some p => if p ≠ 0 then oddsOr0 r / (p : ℚ) else 0
  | none => 0

/-- The per-race bet selection of `analyze_return_rate`: the first
popularity-1 entry for `favorite`, the maximal-odds entry among
popularity at least 10 for `longshot`, the entry maximizing odds over
popularity among popularity 3 to 8 for `value`, and no selection for any
other strategy string. -/
def selectBet (strategy : String) (results : List RaceResult) :
    Option RaceResult :=
  if strategy = "favorite" then
    (results.filter (fun r => r.popularity == some 1)).head?
  else if strategy = "longshot" then
    match results.filter longshotP with
    | [] => none
    | x :: xs => some (pyMax oddsOr0 x xs)
  else if strategy = "value" then
    match results.filter valueP with
    | [] => none
    | x :: xs => some (pyMax valueKey x xs)
  else none

/-- All results of one race: the `filter_by(race_id=...)` query inside
the backtesting loop. -/
def resultsOf (db : DB) (rid : String) : List RaceResult :=
  db.results.filter (fun r => r.race_id == rid)

/-- The bet placed for one race of the window: none when the race has no
results (the `continue`) and otherwise the strategy's selection. -/
def betFor (db : DB) (strategy : String) (race : Race) : Option RaceResult :=
  let results := resultsOf db race.race_id
  if results.isEmpty then none else selectBet strategy results

/-- Accumulator of the backtesting loop. -/
structure BetAcc where
  total_investment : ℚ
  total_return : ℚ
  wins : Nat
deriving DecidableEq, Repr

/-- One iteration of the backtesting loop: stake 100 on the selected
entry, crediting `100 * (odds or 0)` on a rank-1 finish. -/
def stepBet (db : DB) (strategy : String) (acc : BetAcc) (race : Race) :
    BetAcc :=
  match betFor db strategy race with
  | none => acc
  | some sh =>
      { total_investment := acc.total_investment + 100,
        total_return :=
          if sh.ranking == some 1 then acc.total_return + 100 * oddsOr0 sh
          else acc.total_return,
        wins := if sh.ranking == some 1 then acc.wins + 1 else acc.wins }

/-- Return record of `analyze_return_rate`. -/
structure ReturnRate where
  strategy : String
  total_races : Nat
  total_investment : ℚ
  total_return : ℚ
  return_rate : ℚ
  win_rate : ℚ
  profit : ℚ
deriving DecidableEq, Repr

/-- Races with date at or after the cutoff: the windowed race query of
`analyze_return_rate`. -/
def racesInWindow (db : DB) (cutoff : Int) : List Race :=
  db.races.filter (fun rc => decide (cutoff ≤ rc.race_date))

/-- Embedding of `KeibaAnalyzer.analyze_return_rate`. -/
def analyze_return_rate (db : DB) (strategy : String) (cutoff : Int) :
    ReturnRate :=
  let races := racesInWindow db cutoff
  let acc := races.foldl (stepBet db strategy) ⟨0, 0, 0⟩
  { strategy := strategy,
    total_races := races.length,
    total_investment := acc.total_investment,
    total_return := acc.total_return,
    return_rate :=
      if acc.total_investment > 0 then
        acc.total_return / acc.total_investment * 100
      else 0,
    win_rate :=
      if races.isEmpty then 0 else (acc.wins : ℚ) / races.length * 100,
    profit := acc.total_return - acc.total_investment }

/-- The strategy names accepted by the API layer. -/
def validStrategies : List String := ["favorite", "longshot", "value"]

/-- Outcome of an API endpoint: a JSON payload or an HTTP 400 error body. -/
inductive ApiResult (α : Type) where
  | ok : α → ApiResult α
  | badRequest : String → ApiResult α
deriving DecidableEq, Repr

/-- Embedding of the `/api/analysis/return-rate` handler of
`api/index.py`: unknown strategies are rejected with a 400 error before
the analyzer runs. -/
def get_return_rate (db : DB) (strategy : String) (cutoff : Int) :
    ApiResult ReturnRate :=
  if strategy ∉ validStrategies then
    .badRequest "Invalid strategy. Choose from: favorite, longshot, value"
  else .ok (analyze_return_rate db strategy cutoff)

/-- Per-horse accumulator of `get_hot_horses`. -/
structure HotStats where
  horse_id : String
  horse_name : String
  races : Nat
  wins : Nat
  top3 : Nat
  recent_rankings : List Nat
deriving DecidableEq, Repr

/-- Results joined to horse and race, restricted to races with date at
or after the cutoff: the windowed query of `get_hot_horses` (the source
fixes the window at 30 days before now). -/
def hotJoined (db : DB) (cutoff : Int) : List (RaceResult × Horse × Race) :=
  db.results.filterMap (fun r =>
    match findHorse db r.horse_id, findRace db r.race_id with
    | some h, some rc =>
        if cutoff ≤ rc.race_date then some (r, h, rc) else none
    | _, _ => none)

/-- One loop body of `get_hot_horses`: bump the race count always, and on
a present (truthy) rank append it and bump the win and top-3 counts. -/
def bumpHot (s : HotStats) (r : RaceResult) : HotStats :=
  match r.ranking with
  | none => { s with races := s.races + 1 }
  | some n =>
      if n = 0 then { s with races := s.races + 1 }
      else
        { s with
          races := s.races + 1,
          recent_rankings := s.recent_rankings ++ [n],
          wins := if n = 1 then s.wins + 1 else s.wins,
          top3 := if n ≤ 3 then s.top3 + 1 else s.top3 }

/-- Update of the insertion-ordered per-horse table: bump the existing
entry for the horse, or append a fresh entry at the end. -/
def updateHot (l : List HotStats) (r : RaceResult) (h : Horse) :
    List HotStats :=
  match l with
  | [] => [bumpHot ⟨h.horse_id, h.horse_name, 0, 0, 0, []⟩ r]
  | s :: ss =>
      if s.horse_id = h.horse_id then bumpHot s r :: ss
      else s :: updateHot ss r h

/-- The aggregation loop of `get_hot_horses`, building the
insertion-ordered `horse_stats` table. -/
def horseStatsList (db : DB) (cutoff : Int) : List HotStats :=
  (hotJoined db cutoff).foldl (fun acc p => updateHot acc p.1 p.2.1) []

/-- Output record of `get_hot_horses`. -/
structure HotHorse where
  horse_id : String
  horse_name : String
  races : Nat
  wins : Nat
  win_rate : ℚ
  top3_rate : ℚ
  avg_ranking : ℚ
  score : ℚ
deriving DecidableEq, Repr

/-- The per-horse score computation of `get_hot_horses`, including the
999 mean-rank sentinel when no present ranks exist. -/
def mkHotHorse (s : HotStats) : HotHorse :=
  let win_rate : ℚ := (s.wins : ℚ) / s.races * 100
  let top3_rate : ℚ := (s.top3 : ℚ) / s.races * 100
  let avg : ℚ :=
    if s.recent_rankings.isEmpty then 999 else meanN s.recent_rankings
  ⟨s.horse_id, s.horse_name, s.races, s.wins, win_rate, top3_rate, avg,
    win_rate * 3 + top3_rate * 2 + (20 - avg) * 5⟩

/-- The eligibility filter and score pass of `get_hot_horses`: horses
with at least 2 qualifying races, in table order. -/
def hotHorsesUnsorted (db : DB) (cutoff : Int) : List HotHorse :=
  (horseStatsList db cutoff).filterMap (fun s =>
    if 2 ≤ s.races then some (mkHotHorse s) else none)

/-- Embedding of `KeibaAnalyzer.get_hot_horses`: sort descending by
score (stable) and truncate to `limit` entries. -/
def get_hot_horses (db : DB) (cutoff : Int) (limit : Nat) : List HotHorse :=
  (sortDesc (fun h => h.score) (hotHorsesUnsorted db cutoff)).take limit

/-- Payout of the bet placed on one race: `100 * (odds or 0)` on a
rank-1 finish of the selected entry, otherwise 0. -/
def payout (db : DB) (strategy : String) (race : Race) : ℚ :=
  match betFor db strategy race with
  | some sh => if sh.ranking == some 1 then 100 * oddsOr0 sh else 0
  | none => 0

/-- Whether the bet placed on one race won (selected entry finished
rank 1). -/
def betWon (db : DB) (strategy : String) (race : Race) : Bool :=
  match betFor db strategy race with
  | some sh => sh.ranking == some 1
  | none => false

/-- Whether a joined result carries a present distance lying inside the
union (0, 9999] of the four distance bands. -/
def inBandRange (p : RaceResult × Race) : Bool :=
  match p.2.distance with
  | some d => decide (0 < d) && decide (d ≤ 9999)
  | none => false

/-- Sum of the race counts of a condition table. -/
def sumCondRaces (l : List CondStats) : Nat :=
  (l.map (fun s => s.races)).sum

/-- Sum of the race counts across the four bands of a distance table. -/
def sumDistTab (tab : DistTable) : Nat :=
  tab.sprint.races + tab.mile.races + tab.intermediate.races +
    tab.long.races

/-- The horse ids of a per-horse statistics table, in table order. -/
def hotIds (l : List HotStats) : List String :=
  l.map (fun s => s.horse_id)

/-- Score formula as the specification words it: the sum of the three
components — recency `(20 - mean_recent_rank) * 5` only when some recent
result has a present rank, form `(wins / count) * 100 * 2` only when
recent results exist, and popularity `(20 - popularity) * 3` only when
the entry's popularity is present — an absent component contributing 0. -/
def specScore (past : List RaceResult) (pop : Option Nat) : ℚ :=
  (if (presentRanks past).isEmpty then 0
   else (20 - meanN (presentRanks past)) * 5)
  + (if past.isEmpty then 0
     else
       ((past.countP (fun r => r.ranking == some 1) : ℚ) / past.length
         * 100) * 2)
  + (match pop with
     | some p => (20 - (p : ℚ)) * 3
     | none => 0)

/-- Database with one windowed result whose finishing rank is absent:
the horse was scratched or did not finish. -/
def dbAbsentRank : DB :=
  ⟨[⟨"r1", 100, some 1600, some "良"⟩], [⟨"h1", "Alpha"⟩],
   [⟨1, "r1", "h1", some 3, none, some "J", some 2, some 1⟩]⟩

/-- Database with one race won by its market favorite at odds 3. -/
def dbUnknownStrategy : DB :=
  ⟨[⟨"r1", 100, some 1600, some "良"⟩], [⟨"h1", "Alpha"⟩],
   [⟨1, "r1", "h1", some 3, some 1, some "J", some 3, some 1⟩]⟩

/-- Database where one horse ran twice in the window and neither result
has a present finishing rank. -/
def dbNoRanks : DB :=
  ⟨[⟨"r1", 100, some 1600, some "良"⟩, ⟨"r2", 101, some 1600, some "良"⟩],
   [⟨"h1", "Alpha"⟩],
   [⟨1, "r1", "h1", some 3, none, some "J", some 2, some 1⟩,
    ⟨2, "r2", "h1", some 3, none, some "J", some 2, some 1⟩]⟩

/-- Database with one result whose race has the present distance 10000,
beyond the upper bound of the `long` band. -/
def dbFarDistance : DB :=
  ⟨[⟨"r1", 100, some 10000, some "良"⟩], [⟨"h1", "Alpha"⟩],
   [⟨1, "r1", "h1", some 3, some 1, some "J", some 2, some 1⟩]⟩

/-- The synthetic backtest of the specification: three races, each with
a popularity-1 entry; two favorites win at odds 5/2 and 3, one loses. -/
def dbFavorite3 : DB :=
  ⟨[⟨"r1", 100, some 1600, some "良"⟩, ⟨"r2", 100, some 1600, some "良"⟩,
    ⟨"r3", 100, some 1600, some "良"⟩],
   [⟨"h1", "Alpha"⟩, ⟨"h2", "Beta"⟩, ⟨"h3", "Gamma"⟩],
   [⟨1, "r1", "h1", some 1, some 1, some "J", some (5 / 2), some 1⟩,
    ⟨2, "r2", "h2", some 1, some 1, some "J", some 3, some 1⟩,
    ⟨3, "r3", "h3", some 1, some 4, some "J", some 2, some 1⟩]⟩

/-- Database whose only result was ridden by jockey JY and has neither a
present rank nor present odds. -/
def dbNullMeans : DB :=
  ⟨[⟨"r1", 100, some 1600, some "良"⟩], [⟨"h1", "Alpha"⟩],
   [⟨1, "r1", "h1", some 1, none, some "JY", none, none⟩]⟩

/-- Database where one race has an absent track condition. -/
def dbCondNone : DB :=
  ⟨[⟨"r1", 100, some 1600, none⟩, ⟨"r2", 101, some 1600, some "良"⟩],
   [⟨"h1", "Alpha"⟩],
   [⟨1, "r1", "h1", some 3, some 1, some "J", some 2, some 1⟩,
    ⟨2, "r2", "h1", some 3, some 2, some "J", some 2, some 1⟩,
    ⟨3, "r1", "h1", some 3, none, some "J", some 2, some 1⟩]⟩

/-- Database for the scoring witness: horse h1 enters race r3 with
popularity 2 and has two past results, one won and one unranked. -/
def dbPastForm : DB :=
  ⟨[⟨"r1", 100, some 1600, some "良"⟩, ⟨"r2", 101, some 1600, some "良"⟩,
    ⟨"r3", 102, some 1600, some "良"⟩],
   [⟨"h1", "Alpha"⟩],
   [⟨1, "r1", "h1", some 1, some 1, some "J", some 2, some 1⟩,
    ⟨2, "r2", "h1", some 1, none, some "J", some 2, some 1⟩,
    ⟨10, "r3", "h1", some 1, none, some "J", none, some 2⟩]⟩

/-- Database where horse h1 won its single race of the window and horse
h2 ran twice without winning. -/
def dbOneWin : DB :=
  ⟨[⟨"r1", 100, some 1600, some "良"⟩, ⟨"r2", 101, some 1600, some "良"⟩],
   [⟨"h1", "Alpha"⟩, ⟨"h2", "Beta"⟩],
   [⟨1, "r1", "h1", some 1, some 1, some "J", some 2, some 1⟩,
    ⟨2, "r1", "h2", some 2, some 4, some "J", some 9, some 4⟩,
    ⟨3, "r2", "h2", some 2, some 5, some "J", some 9, some 4⟩]⟩

theorem mem_insDesc (k : α → ℚ) (a x : α) :
    ∀ l : List α, x ∈ insDesc k a l ↔ x = a ∨ x ∈ l
  | [] => by simp [insDesc]
  | b :: l => by
      simp only [insDesc]
      split
      · simp
      · simp [mem_insDesc k a x l]
        tauto

theorem pairwise_insDesc (k : α → ℚ) (a : α) :
    ∀ l : List α, List.Pairwise (fun x y => k y ≤ k x) l →
      List.Pairwise (fun x y => k y ≤ k x) (insDesc k a l)
  | [], _ => by simp [insDesc]
  | b :: l, h => by
      rw [List.pairwise_cons] at h
      simp only [insDesc]
      split
      · rename_i hba
        refine List.Pairwise.cons ?_ (List.Pairwise.cons h.1 h.2)
        intro x hx
        rcases List.mem_cons.mp hx with rfl | hx
        · exact hba
        · exact le_trans (h.1 x hx) hba
      · rename_i hba
        refine List.Pairwise.cons ?_ (pairwise_insDesc k a l h.2)
        intro x hx
        rcases (mem_insDesc k a x l).mp hx with rfl | hx
        · exact le_of_lt (lt_of_not_le hba)
        · exact h.1 x hx

theorem sortDesc_pairwise (k : α → ℚ) :
    ∀ l : List α, List.Pairwise (fun x y => k y ≤ k x) (sortDesc k l)
  | [] => by simp [sortDesc]
  | a :: l => pairwise_insDesc k a (sortDesc k l) (sortDesc_pairwise k l)

theorem filter_insDesc_eq (k : α → ℚ) (s : ℚ) (a : α) (ha : k a = s) :
    ∀ l : List α,
      (insDesc k a l).filter (fun x => k x == s) =
        a :: l.filter (fun x => k x == s)
  | [] => by simp [insDesc, List.filter, ha]
  | b :: l => by
      simp only [insDesc]
      split
      · simp [List.filter, ha]
      · rename_i hba
        have hb : (k b == s) = false := by
          subst ha
          simp only [beq_eq_false_iff_ne, ne_eq]
          intro hbs
          exact hba (le_of_eq hbs)
        simp [List.filter, hb, filter_insDesc_eq k s a ha l]

theorem filter_insDesc_ne (k : α → ℚ) (s : ℚ) (a : α) (ha : ¬ k a = s) :
    ∀ l : List α,
      (insDesc k a l).filter (fun x => k x == s) =
        l.filter (fun x => k x == s)
  | [] => by
      have h : (k a == s) = false := by simpa using ha
      simp [insDesc, List.filter, h]
  | b :: l => by
      have h : (k a == s) = false := by simpa using ha
      simp only [insDesc]
      split
      · simp [List.filter, h]
      · simp only [List.filter, filter_insDesc_ne k s a ha l]

theorem sortDesc_filter (k : α → ℚ) (s : ℚ) :
    ∀ l : List α,
      (sortDesc k l).filter (fun x => k x == s) =
        l.filter (fun x => k x == s)
  | [] => rfl
  | a :: l => by
      by_cases ha : k a = s
      · rw [sortDesc, filter_insDesc_eq k s a ha (sortDesc k l),
          sortDesc_filter k s l]
        simp [List.filter, ha]
      · rw [sortDesc, filter_insDesc_ne k s a ha (sortDesc k l),
          sortDesc_filter k s l]
        simp only [List.filter]
        have : (k a == s) = false := by simpa using ha
        rw [this]

theorem mem_sortDesc (k : α → ℚ) (x : α) :
    ∀ l : List α, x ∈ sortDesc k l ↔ x ∈ l
  | [] => Iff.rfl
  | a :: l => by
      rw [sortDesc, mem_insDesc k a x (sortDesc k l), mem_sortDesc k x l]
      simp

theorem length_insDesc (k : α → ℚ) (a : α) :
    ∀ l : List α, (insDesc k a l).length = l.length + 1
  | [] => rfl
  | b :: l => by
      simp only [insDesc]
      split
      · rfl
      · simp [length_insDesc k a l]

theorem sortDesc_length (k : α → ℚ) :
    ∀ l : List α, (sortDesc k l).length = l.length
  | [] => rfl
  | a :: l => by
      rw [sortDesc, length_insDesc k a (sortDesc k l), sortDesc_length k l,
        List.length_cons]

theorem assignRanks_map_fst :
    ∀ (n : Nat) (l : List PredEntry), (assignRanks n l).map Prod.fst = l
  | _, [] => rfl
  | n, p :: ps => by
      simp [assignRanks, assignRanks_map_fst (n + 1) ps]

theorem assignRanks_map_snd :
    ∀ (n : Nat) (l : List PredEntry),
      (assignRanks n l).map Prod.snd = List.range' n l.length
  | _, [] => rfl
  | n, p :: ps => by
      rw [List.length_cons, List.range'_succ]
      simp [assignRanks, assignRanks_map_snd (n + 1) ps]

theorem pairwise_assignRanks (n : Nat) (l : List PredEntry)
    (h : List.Pairwise (fun x y => y.score ≤ x.score) l) :
    List.Pairwise (fun x y => y.1.score ≤ x.1.score) (assignRanks n l) := by
  rw [← assignRanks_map_fst n l] at h
  exact List.pairwise_map.mp h

/-- Claim C9: for every input, the sequences returned by
`predict_race_result` and `get_hot_horses` are in non-increasing score
order, entries with equal scores keep their original relative order
(stable sort), `predict_race_result` attaches predicted ranks that are
exactly the 1-based positions after sorting, and `get_hot_horses`
truncates to at most `limit` entries. -/
theorem predict_and_hot_sorted_stable_ranked (db : DB) (rid : String)
    (cutoff : Int) (limit : Nat) :
    List.Pairwise (fun x y => y.1.score ≤ x.1.score)
      (predict_race_result db rid)
    ∧ (∀ s : ℚ,
        ((predict_race_result db rid).map Prod.fst).filter
            (fun p => p.score == s) =
          (rawPredictions db rid).filter (fun p => p.score == s))
    ∧ (predict_race_result db rid).map Prod.snd =
        List.range' 1 (rawPredictions db rid).length
    ∧ List.Pairwise (fun x y => y.score ≤ x.score)
        (get_hot_horses db cutoff limit)
    ∧ (∀ s : ℚ,
        List.Sublist
          ((get_hot_horses db cutoff limit).filter (fun h => h.score == s))
          ((hotHorsesUnsorted db cutoff).filter (fun h => h.score == s)))
    ∧ (get_hot_horses db cutoff limit).length ≤ limit := by
  refine ⟨?_, ?_, ?_, ?_, ?_, ?_⟩
  · exact pairwise_assignRanks 1 _
      (sortDesc_pairwise (fun p => p.score) (rawPredictions db rid))
  · intro s
    rw [predict_race_result, assignRanks_map_fst]
    exact sortDesc_filter (fun p => p.score) s (rawPredictions db rid)
  · rw [predict_race_result, assignRanks_map_snd,
      sortDesc_length (fun p => p.score) (rawPredictions db rid)]
  · exact List.Pairwise.sublist (List.take_sublist limit _)
      (sortDesc_pairwise (fun h => h.score) (hotHorsesUnsorted db cutoff))
  · intro s
    have h1 := List.Sublist.filter (fun h : HotHorse => h.score == s)
      (List.take_sublist limit
        (sortDesc (fun h => h.score) (hotHorsesUnsorted db cutoff)))
    rwa [sortDesc_filter (fun h => h.score) s (hotHorsesUnsorted db cutoff)]
      at h1
  · exact List.length_take_le limit _

/-- Claim C1 (refuted by the code): on a horse whose single windowed
result has an absent finishing rank, `calculate_win_rate` raises a
`TypeError` from the comparison `ranking <= 3` instead of returning a
result record — the claim promises it never raises on matching results
with an absent rank. -/
theorem calculate_win_rate_raises_on_absent_rank :
    calculate_win_rate dbAbsentRank "h1" 0 =
      .error
        "TypeError: '<=' not supported between instances of 'NoneType' and 'int'" := by
  rfl

/-- Claim C6: with zero matching results `calculate_win_rate` returns the
zero-valued record (zeros, not null) while `analyze_jockey_performance`
returns null mean fields; and whenever the present-rank or present-odds
set is empty the corresponding mean field is null, never zero. -/
theorem zero_record_vs_null_means (db : DB) (hid j : String) (cutoff : Int) :
    (resultsInWindow db hid cutoff = [] →
      calculate_win_rate db hid cutoff = .ok ⟨0, 0, 0, 0⟩)
    ∧ (resultsForJockey db j cutoff = [] →
        analyze_jockey_performance db j cutoff = ⟨0, 0, 0, none, none⟩)
    ∧ (presentRanks (resultsForJockey db j cutoff) = [] →
        (analyze_jockey_performance db j cutoff).avg_ranking = none)
    ∧ (presentOdds (resultsForJockey db j cutoff) = [] →
        (analyze_jockey_performance db j cutoff).avg_odds = none) := by
  refine ⟨?_, ?_, ?_, ?_⟩
  · intro h
    simp [calculate_win_rate, h]
  · intro h
    simp [analyze_jockey_performance, h]
  · intro h
    by_cases hres : (resultsForJockey db j cutoff).isEmpty
    · simp [analyze_jockey_performance, hres]
    · simp [analyze_jockey_performance, hres, h]
  · intro h
    by_cases hres : (resultsForJockey db j cutoff).isEmpty
    · simp [analyze_jockey_performance, hres]
    · simp [analyze_jockey_performance, hres, h]

/-- Concrete instance of the zero-versus-null distinction: a horse with
no history gets the zero record, a jockey with no rides gets nulls, and
a jockey whose only ride has no present rank or odds gets null means. -/
theorem zero_record_vs_null_means_witness :
    calculate_win_rate dbNullMeans "hX" 0 = .ok ⟨0, 0, 0, 0⟩
    ∧ analyze_jockey_performance dbNullMeans "JX" 0 = ⟨0, 0, 0, none, none⟩
    ∧ (analyze_jockey_performance dbNullMeans "JY" 0).avg_ranking = none
    ∧ (analyze_jockey_performance dbNullMeans "JY" 0).avg_odds = none := by
  refine ⟨?_, ?_, ?_, ?_⟩
  · exact (zero_record_vs_null_means dbNullMeans "hX" "JX" 0).1 (by decide)
  · exact (zero_record_vs_null_means dbNullMeans "hX" "JX" 0).2.1 (by decide)
  · exact (zero_record_vs_null_means dbNullMeans "hX" "JY" 0).2.2.1 (by decide)
  · exact (zero_record_vs_null_means dbNullMeans "hX" "JY" 0).2.2.2 (by decide)

theorem selectBet_unknown (strategy : String) (results : List RaceResult)
    (h : strategy ∉ validStrategies) : selectBet strategy results = none := by
  have h1 : ¬ strategy = "favorite" := by
    intro he
    exact h (by rw [he]; simp [validStrategies])
  have h2 : ¬ strategy = "longshot" := by
    intro he
    exact h (by rw [he]; simp [validStrategies])
  have h3 : ¬ strategy = "value" := by
    intro he
    exact h (by rw [he]; simp [validStrategies])
  simp [selectBet, h1, h2, h3]

theorem betFor_unknown (db : DB) (strategy : String) (race : Race)
    (h : strategy ∉ validStrategies) : betFor db strategy race = none := by
  simp only [betFor, selectBet_unknown strategy _ h]
  split <;> rfl

theorem foldl_stepBet_unknown (db : DB) (strategy : String)
    (h : strategy ∉ validStrategies) :
    ∀ (races : List Race) (acc : BetAcc),
      races.foldl (stepBet db strategy) acc = acc
  | [], _ => rfl
  | race :: races, acc => by
      have hstep : stepBet db strategy acc race = acc := by
        simp only [stepBet, betFor_unknown db strategy race h]
      rw [List.foldl_cons, hstep,
        foldl_stepBet_unknown db strategy h races acc]

theorem analyze_return_rate_unknown (db : DB) (strategy : String)
    (cutoff : Int) (h : strategy ∉ validStrategies) :
    analyze_return_rate db strategy cutoff =
      ⟨strategy, (racesInWindow db cutoff).length, 0, 0, 0, 0, 0⟩ := by
  have hacc :
      (racesInWindow db cutoff).foldl (stepBet db strategy) ⟨0, 0, 0⟩ =
        (⟨0, 0, 0⟩ : BetAcc) :=
    foldl_stepBet_unknown db strategy h _ _
  simp only [analyze_return_rate, hacc, ReturnRate.mk.injEq]
  norm_num

/-- Claim C2 (refuted by the code): called directly with the unknown
strategy name `martingale` on a database holding a race a valid strategy
would bet on, `analyze_return_rate` silently returns the default
zero-valued record instead of surfacing an invalid-argument error. -/
theorem analyze_return_rate_unknown_strategy_silent :
    analyze_return_rate dbUnknownStrategy "martingale" 0 =
      ⟨"martingale", 1, 0, 0, 0, 0, 0⟩ :=
  analyze_return_rate_unknown dbUnknownStrategy "martingale" 0 (by decide)

/-- Claim C2 amended: for a strategy name outside favorite, longshot and
value, `analyze_return_rate` itself places no bets and silently returns
the zero-valued default record; the invalid-argument rejection lives one
layer up, in the API handler `get_return_rate`, which answers with an
HTTP 400 error body without calling the analyzer. -/
theorem unknown_strategy_zero_default (db : DB) (strategy : String)
    (cutoff : Int) (h : strategy ∉ validStrategies) :
    analyze_return_rate db strategy cutoff =
      ⟨strategy, (racesInWindow db cutoff).length, 0, 0, 0, 0, 0⟩
    ∧ get_return_rate db strategy cutoff =
        .badRequest "Invalid strategy. Choose from: favorite, longshot, value" := by
  constructor
  · exact analyze_return_rate_unknown db strategy cutoff h
  · simp [get_return_rate, h]

/-- Concrete instance of the amended claim at the unknown strategy
`martingale`: the analyzer returns the zero-valued default while the API
layer rejects the request. -/
theorem unknown_strategy_zero_default_witness :
    analyze_return_rate dbUnknownStrategy "martingale" 0 =
      ⟨"martingale", 1, 0, 0, 0, 0, 0⟩
    ∧ get_return_rate dbUnknownStrategy "martingale" 0 =
        .badRequest "Invalid strategy. Choose from: favorite, longshot, value" :=
  unknown_strategy_zero_default dbUnknownStrategy "martingale" 0 (by decide)

theorem sumCondRaces_updateCond :
    ∀ (l : List CondStats) (key : String) (r : RaceResult),
      sumCondRaces (updateCond l key r) = sumCondRaces l + 1
  | [], key, r => by simp [updateCond, sumCondRaces, bumpCond]
  | s :: ss, key, r => by
      simp only [updateCond]
      split
      · simp [sumCondRaces, bumpCond]
        omega
      · have hrec := sumCondRaces_updateCond ss key r
        simp only [sumCondRaces, List.map_cons, List.sum_cons] at *
        omega

theorem sumCondRaces_foldl :
    ∀ (ps : List (RaceResult × Race)) (acc : List CondStats),
      sumCondRaces
          (ps.foldl (fun acc p => updateCond acc (condKey p.2) p.1) acc) =
        sumCondRaces acc + ps.length
  | [], acc => by simp
  | p :: ps, acc => by
      rw [List.foldl_cons, sumCondRaces_foldl ps _,
        sumCondRaces_updateCond acc (condKey p.2) p.1]
      simp only [List.length_cons]
      omega

/-- Claim C7: `analyze_track_condition` assigns every joined result to
exactly one condition group, bucketing an absent condition under the
explicit unknown label, so the race counts summed across all returned
groups equal the total number of the horse's joined results. -/
theorem track_condition_total_races (db : DB) (hid : String) :
    ((analyze_track_condition db hid).map (fun g => g.races)).sum =
      (joinedResults db hid).length
    ∧ ∀ rc : Race, rc.track_condition = none → condKey rc = "不明" := by
  constructor
  · have h1 :
        (analyze_track_condition db hid).map (fun g => g.races) =
          (condStatsList db hid).map (fun s => s.races) := by
      simp [analyze_track_condition, List.map_map]
    have h2 := sumCondRaces_foldl (joinedResults db hid) []
    rw [h1]
    simpa [condStatsList, sumCondRaces] using h2
  · intro rc h
    simp [condKey, h]

/-- Concrete instance: over a three-result history including a race with
an absent track condition, the group race counts sum to 3, and the
absent condition is keyed by the unknown label. -/
theorem track_condition_total_races_witness :
    ((analyze_track_condition dbCondNone "h1").map (fun g => g.races)).sum =
      (joinedResults dbCondNone "h1").length
    ∧ condKey ⟨"r1", 100, some 1600, none⟩ = "不明" :=
  ⟨(track_condition_total_races dbCondNone "h1").1,
   (track_condition_total_races dbCondNone "h1").2 ⟨"r1", 100, some 1600, none⟩ rfl⟩

theorem sumDistTab_updateDist (tab : DistTable) (r : RaceResult) (rc : Race) :
    sumDistTab (updateDist tab r rc) =
      sumDistTab tab + (if inBandRange (r, rc) then 1 else 0) := by
  cases hd : rc.distance with
  | none => simp [updateDist, inBandRange, hd]
  | some d =>
      simp only [updateDist, inBandRange, hd, Bool.and_eq_true,
        decide_eq_true_eq]
      split_ifs <;> simp [sumDistTab, bumpDist] <;> omega

theorem sumDistTab_foldl :
    ∀ (ps : List (RaceResult × Race)) (acc : DistTable),
      sumDistTab (ps.foldl (fun tab p => updateDist tab p.1 p.2) acc) =
        sumDistTab acc + ps.countP inBandRange
  | [], acc => by simp
  | p :: ps, acc => by
      rw [List.foldl_cons, sumDistTab_foldl ps _,
        sumDistTab_updateDist acc p.1 p.2, List.countP_cons]
      cases p
      split <;> omega

theorem finalizeDist_races (s : DistStats) : (finalizeDist s).races = s.races := by
  unfold finalizeDist
  split <;> rfl

/-- Claim C4 (refuted by the code): a result whose race has the present
distance 10000 is bucketed into none of the four bands — the band race
counts sum to 0 while the count of present-distance results is 1. -/
theorem distance_band_counts_drop_present_distance :
    distRacesSum dbFarDistance "h1" = 0
    ∧ (joinedResults dbFarDistance "h1").countP
        (fun p => p.2.distance.isSome) = 1 := by
  constructor
  · decide
  · decide

/-- Claim C4 amended: the four half-open bands partition the distances
in (0, 9999]; every result whose present distance lies in that range is
bucketed into exactly one band, and the band race counts sum to the
number of results with a present distance in (0, 9999] — a present
distance outside the range (or a zero distance, falsy in the source's
truthiness test) is excluded from every band. -/
theorem distance_bands_partition (db : DB) (hid : String) :
    distRacesSum db hid = (joinedResults db hid).countP inBandRange
    ∧ ∀ d : Nat, 0 < d → d ≤ 9999 → distBandsMatched d = 1 := by
  constructor
  · have h1 : distRacesSum db hid = sumDistTab (distTable db hid) := by
      simp [distRacesSum, analyze_distance_performance, sumDistTab,
        finalizeDist_races]
    have h2 := sumDistTab_foldl (joinedResults db hid)
      ⟨⟨0, 0, []⟩, ⟨0, 0, []⟩, ⟨0, 0, []⟩, ⟨0, 0, []⟩⟩
    rw [h1, distTable]
    simpa [sumDistTab] using h2
  · intro d h1 h2
    simp only [distBandsMatched, distBands, List.countP_cons, List.countP_nil,
      Bool.and_eq_true, decide_eq_true_eq]
    split_ifs <;> omega

/-- Concrete instance of the amended claim: the long-distance result is
excluded from every band, and the distance 1500 falls in exactly one
band. -/
theorem distance_bands_partition_witness :
    distRacesSum dbFarDistance "h1" =
      (joinedResults dbFarDistance "h1").countP inBandRange
    ∧ distBandsMatched 1500 = 1 :=
  ⟨(distance_bands_partition dbFarDistance "h1").1,
   (distance_bands_partition dbFarDistance "h1").2 1500 (by decide) (by decide)⟩

theorem computeScore_eq_specScore (past : List RaceResult)
    (pop : Option Nat) (hpop : pop ≠ some 0) :
    computeScore past pop = specScore past pop := by
  have hmatch :
      (if truthyNat pop then
          match pop with
          | some p => (20 - (p : ℚ)) * 3
          | none => 0
        else 0) =
        (match pop with
          | some p => (20 - (p : ℚ)) * 3
          | none => 0) := by
    cases pop with
    | none => simp [truthyNat]
    | some p =>
        have hp : p ≠ 0 := by
          intro he
          exact hpop (by rw [he])
        simp [truthyNat, hp]
  cases past with
  | nil =>
      simp only [computeScore, specScore, List.isEmpty_nil, if_true, hmatch]
      cases pop <;> simp [presentRanks]
  | cons a l =>
      simp only [computeScore, specScore, List.isEmpty_cons, if_false, hmatch]
      cases pop <;> simp

/-- Claim C8: for every entry of the given race, the score emitted by
`predict_race_result` equals the specification's component sum over the
horse's up-to-5 most recent other results — recency, form and
popularity components each added only when present, an absent component
contributing 0 — provided the entry's popularity is not the degenerate
value 0 (the data model only produces positive popularity ranks, and the
source's truthiness test conflates 0 with absent). -/
theorem predict_score_formula (db : DB) (rid : String)
    (p : RaceResult × Horse) (hpop : p.1.popularity ≠ some 0) :
    (mkPrediction db rid p).score =
      specScore (pastResults db p.2.horse_id rid) p.1.popularity :=
  computeScore_eq_specScore _ _ hpop

/-- Concrete instance of the component formula: horse h1 enters race r3
with popularity 2 and two past results (one win with rank 1, one
unranked). -/
theorem predict_score_formula_witness :
    (mkPrediction dbPastForm "r3"
        (⟨10, "r3", "h1", some 1, none, some "J", none, some 2⟩,
         ⟨"h1", "Alpha"⟩)).score =
      specScore (pastResults dbPastForm "h1" "r3") (some 2) :=
  predict_score_formula dbPastForm "r3"
    (⟨10, "r3", "h1", some 1, none, some "J", none, some 2⟩, ⟨"h1", "Alpha"⟩)
    (by decide)

theorem foldl_stepBet_eq (db : DB) (strategy : String) :
    ∀ (races : List Race) (acc : BetAcc),
      races.foldl (stepBet db strategy) acc =
        ⟨acc.total_investment +
            100 * ((races.countP
              (fun race => (betFor db strategy race).isSome) : Nat) : ℚ),
          acc.total_return + (races.map (payout db strategy)).sum,
          acc.wins + races.countP (betWon db strategy)⟩
  | [], acc => by simp
  | race :: races, acc => by
      rw [List.foldl_cons, foldl_stepBet_eq db strategy races _]
      have hstep :
          stepBet db strategy acc race =
            ⟨acc.total_investment +
                (if (betFor db strategy race).isSome then (100 : ℚ) else 0),
              acc.total_return + payout db strategy race,
              acc.wins + (if betWon db strategy race then 1 else 0)⟩ := by
        cases hbet : betFor db strategy race with
        | none => simp [stepBet, hbet, payout, betWon]
        | some sh =>
            by_cases hr : (sh.ranking == some 1) = true
            · simp [stepBet, hbet, payout, betWon, hr]
            · have hr' : (sh.ranking == some 1) = false := by
                simpa using hr
              simp [stepBet, hbet, payout, betWon, hr']
      rw [hstep]
      simp only [BetAcc.mk.injEq, List.countP_cons, List.map_cons,
        List.sum_cons]
      refine ⟨?_, ?_, ?_⟩
      · push_cast
        split_ifs <;> ring
      · ring
      · split_ifs <;> omega

/-- Claim C5: for the valid strategies, `analyze_return_rate` stakes 100
per race with a qualifying entry (skipped races consume no stake),
credits `100 * odds` exactly on rank-1 finishes of the selected entry,
and reports `return_rate = total_return / total_investment * 100` (0 on
zero investment, never a division failure),
`win_rate = wins / total races considered * 100` (0 with no races), and
`profit = total_return - total_investment`. -/
theorem return_rate_accounting (db : DB) (strategy : String) (cutoff : Int)
    (_h : strategy ∈ validStrategies) :
    (analyze_return_rate db strategy cutoff).total_investment =
      100 * (((racesInWindow db cutoff).countP
        (fun race => (betFor db strategy race).isSome) : Nat) : ℚ)
    ∧ (analyze_return_rate db strategy cutoff).total_return =
        ((racesInWindow db cutoff).map (payout db strategy)).sum
    ∧ (analyze_return_rate db strategy cutoff).return_rate =
        (if (analyze_return_rate db strategy cutoff).total_investment = 0
          then 0
          else (analyze_return_rate db strategy cutoff).total_return /
            (analyze_return_rate db strategy cutoff).total_investment * 100)
    ∧ (analyze_return_rate db strategy cutoff).win_rate =
        (if (racesInWindow db cutoff).length = 0 then 0
          else (((racesInWindow db cutoff).countP (betWon db strategy) :
              Nat) : ℚ) / (racesInWindow db cutoff).length * 100)
    ∧ (analyze_return_rate db strategy cutoff).profit =
        (analyze_return_rate db strategy cutoff).total_return -
          (analyze_return_rate db strategy cutoff).total_investment := by
  have hacc := foldl_stepBet_eq db strategy (racesInWindow db cutoff) ⟨0, 0, 0⟩
  refine ⟨?_, ?_, ?_, ?_, ?_⟩
  · simp [analyze_return_rate, hacc]
  · simp [analyze_return_rate, hacc]
  · simp only [analyze_return_rate, hacc, zero_add]
    rcases Nat.eq_zero_or_pos
        ((racesInWindow db cutoff).countP
          (fun race => (betFor db strategy race).isSome)) with h0 | hpos
    · simp [h0]
    · have hgt : (0 : ℚ) <
          100 * ((racesInWindow db cutoff).countP
            (fun race => (betFor db strategy race).isSome) : ℚ) := by
        have := Nat.cast_pos (α := ℚ) |>.mpr hpos
        nlinarith
      rw [if_pos hgt, if_neg (ne_of_gt hgt)]
  · simp only [analyze_return_rate, hacc, zero_add]
    by_cases he : racesInWindow db cutoff = []
    · simp [he]
    · have hlen : (racesInWindow db cutoff).length ≠ 0 := by
        simpa [List.length_eq_zero] using he
      simp [List.isEmpty_iff, he, hlen]
  · simp [analyze_return_rate, hacc]

/-- Concrete instance over the specification's synthetic backtest (three
races with a favorite, two wins at odds 5/2 and 3): the staked total is
100 per betting race. -/
theorem return_rate_accounting_witness :
    (analyze_return_rate dbFavorite3 "favorite" 0).total_investment =
      100 * (((racesInWindow dbFavorite3 0).countP
        (fun race => (betFor dbFavorite3 "favorite" race).isSome) : Nat) : ℚ) :=
  (return_rate_accounting dbFavorite3 "favorite" 0 (by decide)).1

theorem mem_hotHorsesUnsorted (db : DB) (cutoff : Int) (h : HotHorse) :
    h ∈ hotHorsesUnsorted db cutoff ↔
      ∃ s, s ∈ horseStatsList db cutoff ∧ 2 ≤ s.races ∧ mkHotHorse s = h := by
  simp only [hotHorsesUnsorted, List.mem_filterMap]
  constructor
  · rintro ⟨s, hs, hsome⟩
    by_cases h2 : 2 ≤ s.races
    · rw [if_pos h2] at hsome
      exact ⟨s, hs, h2, Option.some.inj hsome⟩
    · rw [if_neg h2] at hsome
      cases hsome
  · rintro ⟨s, hs, h2, he⟩
    exact ⟨s, hs, by rw [if_pos h2, he]⟩

theorem mem_of_mem_get_hot_horses (db : DB) (cutoff : Int) (limit : Nat)
    (h : HotHorse) (hmem : h ∈ get_hot_horses db cutoff limit) :
    h ∈ hotHorsesUnsorted db cutoff := by
  have hmem' :
      h ∈ (sortDesc (fun x => x.score) (hotHorsesUnsorted db cutoff)).take
        limit := hmem
  exact (mem_sortDesc (fun x => x.score) h (hotHorsesUnsorted db cutoff)).mp
    (List.mem_of_mem_take hmem')

/-- Claim C3 (refuted by the code): when a horse's qualifying results
have no present finishing rank, `get_hot_horses` emits the 999 sentinel
as the literal `avg_ranking` value of the returned record, not only
inside the score computation. -/
theorem hot_sentinel_in_output :
    (get_hot_horses dbNoRanks 0 10).map (fun h => h.avg_ranking) = [999] := by
  decide

/-- Claim C3 amended: the 999 mean-rank sentinel feeds the score
computation of `get_hot_horses` and is also emitted as the literal
`avg_ranking` value of the returned record whenever the horse's
qualifying results have no present finishing rank. -/
theorem hot_sentinel_emitted (db : DB) (cutoff : Int) (limit : Nat)
    (h : HotHorse) (hmem : h ∈ get_hot_horses db cutoff limit)
    (hnone : ∀ s ∈ horseStatsList db cutoff,
      s.horse_id = h.horse_id → s.recent_rankings = []) :
    h.avg_ranking = 999 := by
  obtain ⟨s, hs, h2, he⟩ := (mem_hotHorsesUnsorted db cutoff h).mp
    (mem_of_mem_get_hot_horses db cutoff limit h hmem)
  have hid : s.horse_id = h.horse_id := by
    rw [← he]
    rfl
  have hrec := hnone s hs hid
  rw [← he]
  simp [mkHotHorse, hrec]

/-- Concrete instance: the horse whose two windowed results carry no
present rank is returned with the literal sentinel 999 as its mean
rank. -/
theorem hot_sentinel_emitted_witness :
    (mkHotHorse ⟨"h1", "Alpha", 2, 0, 0, []⟩).avg_ranking = 999 :=
  hot_sentinel_emitted dbNoRanks 0 10 (mkHotHorse ⟨"h1", "Alpha", 2, 0, 0, []⟩)
    (by
      rw [show get_hot_horses dbNoRanks 0 10 =
        [mkHotHorse ⟨"h1", "Alpha", 2, 0, 0, []⟩] from rfl]
      exact List.mem_singleton.mpr rfl)
    (by decide)

theorem bumpHot_horse_id (s : HotStats) (r : RaceResult) :
    (bumpHot s r).horse_id = s.horse_id := by
  cases hr : r.ranking with
  | none => simp [bumpHot, hr]
  | some n => by_cases h0 : n = 0 <;> simp [bumpHot, hr, h0]

theorem hotIds_updateHot :
    ∀ (l : List HotStats) (r : RaceResult) (h : Horse),
      hotIds (updateHot l r h) =
        if h.horse_id ∈ hotIds l then hotIds l
        else hotIds l ++ [h.horse_id]
  | [], r, h => by simp [updateHot, hotIds, bumpHot_horse_id]
  | s :: ss, r, h => by
      have hids : hotIds (s :: ss) = s.horse_id :: hotIds ss := rfl
      simp only [updateHot]
      split
      · rename_i heq
        have hm : h.horse_id ∈ hotIds (s :: ss) := by
          rw [hids, heq]
          exact List.mem_cons_self _ _
        rw [if_pos hm]
        show (bumpHot s r).horse_id :: hotIds ss = hotIds (s :: ss)
        rw [bumpHot_horse_id, hids]
      · rename_i hne
        have hcons : hotIds (s :: updateHot ss r h) =
            s.horse_id :: hotIds (updateHot ss r h) := rfl
        rw [hcons, hotIds_updateHot ss r h, hids]
        by_cases hm : h.horse_id ∈ hotIds ss
        · rw [if_pos hm, if_pos (List.mem_cons_of_mem _ hm)]
        · have hm2 : h.horse_id ∉ s.horse_id :: hotIds ss := by
            intro hc
            rcases List.mem_cons.mp hc with he | hc2
            · exact hne he.symm
            · exact hm hc2
          rw [if_neg hm, if_neg hm2]
          rfl

theorem nodup_hotIds_updateHot (l : List HotStats) (r : RaceResult)
    (h : Horse) (hn : (hotIds l).Nodup) :
    (hotIds (updateHot l r h)).Nodup := by
  rw [hotIds_updateHot]
  split
  · exact hn
  · rename_i hm
    simp [List.nodup_append, hn, hm]

theorem nodup_foldl_updateHot :
    ∀ (ps : List (RaceResult × Horse × Race)) (acc : List HotStats),
      (hotIds acc).Nodup →
        (hotIds
          (ps.foldl (fun acc p => updateHot acc p.1 p.2.1) acc)).Nodup
  | [], _, h => h
  | p :: ps, acc, h =>
      nodup_foldl_updateHot ps _ (nodup_hotIds_updateHot acc p.1 p.2.1 h)

theorem nodup_horseStatsList (db : DB) (cutoff : Int) :
    (hotIds (horseStatsList db cutoff)).Nodup :=
  nodup_foldl_updateHot (hotJoined db cutoff) [] (by simp [hotIds])

theorem hotStats_eq_of_id_eq :
    ∀ (l : List HotStats), (hotIds l).Nodup →
      ∀ s ∈ l, ∀ s' ∈ l, s.horse_id = s'.horse_id → s = s'
  | [], _, s, hs, _, _, _ => absurd hs (List.not_mem_nil s)
  | a :: t, hn, s, hs, s', hs', he => by
      have hids : hotIds (a :: t) = a.horse_id :: hotIds t := rfl
      rw [hids, List.nodup_cons] at hn
      rcases List.mem_cons.mp hs with h1 | h1 <;>
        rcases List.mem_cons.mp hs' with h2 | h2
      · rw [h1, h2]
      · exfalso
        apply hn.1
        have hmem : s'.horse_id ∈ hotIds t :=
          List.mem_map_of_mem (fun x => x.horse_id) h2
        rw [← he, h1] at hmem
        exact hmem
      · exfalso
        apply hn.1
        have hmem : s.horse_id ∈ hotIds t :=
          List.mem_map_of_mem (fun x => x.horse_id) h1
        rw [he, h2] at hmem
        exact hmem
      · exact hotStats_eq_of_id_eq t hn.2 s h1 s' h2 he

/-- Claim C10: a horse appears in the output of `get_hot_horses` only
with at least 2 qualifying races in the window; a horse whose aggregated
table entry has fewer races — even a single winning race — is absent
from the output entirely. -/
theorem hot_requires_two_races (db : DB) (cutoff : Int) (limit : Nat)
    (s : HotStats) (hs : s ∈ horseStatsList db cutoff)
    (hlt : s.races < 2) :
    ∀ h ∈ get_hot_horses db cutoff limit, h.horse_id ≠ s.horse_id := by
  intro h hmem heq
  obtain ⟨s', hs', h2, he⟩ := (mem_hotHorsesUnsorted db cutoff h).mp
    (mem_of_mem_get_hot_horses db cutoff limit h hmem)
  have hid : s'.horse_id = s.horse_id := by
    rw [← heq, ← he]
    rfl
  have hss : s' = s :=
    hotStats_eq_of_id_eq (horseStatsList db cutoff)
      (nodup_horseStatsList db cutoff) s' hs' s hs hid
  rw [hss] at h2
  omega

/-- Concrete instance: horse h1 won its single race of the window, horse
h2 ran twice; the returned leaderboard holds only h2's record, whose id
differs from h1's. -/
theorem hot_requires_two_races_witness :
    (mkHotHorse ⟨"h2", "Beta", 2, 0, 0, [4, 5]⟩).horse_id ≠ "h1" :=
  hot_requires_two_races dbOneWin 0 10 ⟨"h1", "Alpha", 1, 1, 1, [1]⟩
    (by decide) (by decide)
    (mkHotHorse ⟨"h2", "Beta", 2, 0, 0, [4, 5]⟩)
    (by
      rw [show get_hot_horses dbOneWin 0 10 =
        [mkHotHorse ⟨"h2", "Beta", 2, 0, 0, [4, 5]⟩] from rfl]
      exact List.mem_singleton.mpr rfl)
